import Mathlib

/-!
Shallow embedding of the Snake game core from `src/game.js`.

Cells are integer pairs; all JS numbers that the game arithmetic touches
(score, speed, the move interval) are embedded as rationals, since every
value the code produces is a dyadic rational with a tiny numerator, on
which IEEE double arithmetic is exact.  The `Math.random()` draws of
`spawnFood` are embedded as an explicit list of candidate cells: the
rejection-sampling `do … while` loop walks the list and returns `none`
when the list is exhausted (the JS loop would keep drawing).  Operations
that can fail this way (or that would throw, e.g. reading `segments[0]`
of an empty snake or dereferencing a `null` food position) return
`Option Game`.
-/

/-- Grid width in cells (`GRID_WIDTH = 21`). -/
def GRID_WIDTH : Int := 21

/-- Grid height in cells (`GRID_HEIGHT = 12`). -/
def GRID_HEIGHT : Int := 12

/-- Initial speed in ticks per second (`INITIAL_SPEED = 5`). -/
def INITIAL_SPEED : ℚ := 5

/-- Speed increment per progression step (`SPEED_INCREMENT = 0.5`). -/
def SPEED_INCREMENT : ℚ := 1/2

/-- Maximum speed (`MAX_SPEED = 15`). -/
def MAX_SPEED : ℚ := 15

/-- Base points per food item (`FOOD_POINTS = 10`). -/
def FOOD_POINTS : ℚ := 10

/-- A grid cell: the `{x, y}` objects of the source. -/
@[ext] structure Cell where
  x : Int
  y : Int
deriving DecidableEq

/-- The snake record: `this.snake` in the source. -/
@[ext] structure Snake where
  segments : List Cell
  direction : Cell
  nextDirection : Cell
deriving DecidableEq

/-- The game-state enum strings `'MENU' | 'PLAYING' | 'PAUSED' | 'GAME_OVER'`. -/
inductive GState where
  | MENU
  | PLAYING
  | PAUSED
  | GAME_OVER
deriving DecidableEq

/-- The `this.gameState` record of the source. -/
@[ext] structure GameData where
  score : ℚ
  highScore : ℚ
  speed : ℚ
  foodPosition : Option Cell
  state : GState
  foodEaten : Nat
deriving DecidableEq

/-- The whole mutable state of a `SnakeGame` instance (simulation part:
rendering, audio and DOM fields are outside the model). -/
@[ext] structure Game where
  gameState : GameData
  snake : Snake
  moveInterval : ℚ
deriving DecidableEq

/-- The segment/position comparison used throughout the source:
`a.x === b.x && a.y === b.y`. -/
def cellEq (a b : Cell) : Bool := a.x == b.x && a.y == b.y

/-- `spawnFood` (lines 208–220): rejection-sample over the random draws
until one hits no snake segment; `none` when the draw list runs out
(the JS loop would keep spinning). -/
def spawnFood (segments : List Cell) : List Cell → Option Cell
  | [] => none
  | c :: rest =>
      if segments.any (fun segment => cellEq segment c) then
        spawnFood segments rest
      else
        some c

/-- `startGame` (lines 148–169): reset score/speed/foodEaten, place the
fresh length-3 snake moving right, spawn food, enter PLAYING. -/
def startGame (g : Game) (draws : List Cell) : Option Game :=
  let gs1 := { g.gameState with
                 state := GState.PLAYING
                 score := 0
                 speed := INITIAL_SPEED
                 foodEaten := 0 }
  let snake1 : Snake :=
    { segments := [⟨10, 6⟩, ⟨9, 6⟩, ⟨8, 6⟩]
      direction := ⟨1, 0⟩
      nextDirection := ⟨1, 0⟩ }
  match spawnFood snake1.segments draws with
  | none => none
  | some f =>
      some { gameState := { gs1 with foodPosition := some f }
             snake := snake1
             moveInterval := 1000 / INITIAL_SPEED }

/-- `pauseGame` (lines 171–174). -/
def pauseGame (g : Game) : Game :=
  { g with gameState := { g.gameState with state := GState.PAUSED } }

/-- `resumeGame` (lines 176–179). -/
def resumeGame (g : Game) : Game :=
  { g with gameState := { g.gameState with state := GState.PLAYING } }

/-- `gameOver` (lines 181–200): enter GAME_OVER; persist the score as the
new high score exactly when it strictly exceeds the stored one. -/
def gameOver (g : Game) : Game :=
  let gs1 := { g.gameState with state := GState.GAME_OVER }
  if gs1.highScore < gs1.score then
    { g with gameState := { gs1 with highScore := gs1.score } }
  else
    { g with gameState := gs1 }

/-- `resetToMenu` (lines 202–206). -/
def resetToMenu (g : Game) : Game :=
  { g with gameState := { g.gameState with state := GState.MENU } }

/-- `eatFood` (lines 262–276): score bonus from length (after growth) and
`Math.floor(speed) * 2`, bump `foodEaten`, every 5th item raise speed by
`SPEED_INCREMENT` clamped at `MAX_SPEED`, then respawn food. -/
def eatFood (g : Game) (draws : List Cell) : Option Game :=
  let lengthBonus : ℚ := (g.snake.segments.length : ℚ)
  let speedBonus : ℚ := ((⌊g.gameState.speed⌋ : ℤ) : ℚ) * 2
  let score1 := g.gameState.score + FOOD_POINTS + lengthBonus + speedBonus
  let foodEaten1 := g.gameState.foodEaten + 1
  let sp :=
    if foodEaten1 % 5 = 0 ∧ g.gameState.speed < MAX_SPEED then
      min (g.gameState.speed + SPEED_INCREMENT) MAX_SPEED
    else
      g.gameState.speed
  let mi :=
    if foodEaten1 % 5 = 0 ∧ g.gameState.speed < MAX_SPEED then
      1000 / sp
    else
      g.moveInterval
  match spawnFood g.snake.segments draws with
  | none => none
  | some f =>
      some { g with
               gameState := { g.gameState with
                                score := score1
                                foodEaten := foodEaten1
                                speed := sp
                                foodPosition := some f }
               moveInterval := mi }

/-- The head advanced by a direction: `head.x += dir.x; head.y += dir.y`. -/
def stepCell (c d : Cell) : Cell := ⟨c.x + d.x, c.y + d.y⟩

/-- `moveSnake` (lines 231–260): commit the buffered direction, compute the
new head, wall test, self test against segments 1..end, prepend the head,
then either grow (food hit) or drop the tail.  An empty snake (the JS code
would read `segments[0]` as `undefined`) and a `null` food position (the
JS code would throw) are `none`. -/
def moveSnake (g : Game) (draws : List Cell) : Option Game :=
  let dir := g.snake.nextDirection
  match g.snake.segments with
  | [] => none
  | h :: t =>
      let head := stepCell h dir
      if head.x < 0 ∨ GRID_WIDTH ≤ head.x ∨ head.y < 0 ∨ GRID_HEIGHT ≤ head.y then
        some (gameOver { g with snake := { g.snake with direction := dir } })
      else if t.any (fun segment => cellEq head segment) then
        some (gameOver { g with snake := { g.snake with direction := dir } })
      else
        let segs1 := head :: h :: t
        match g.gameState.foodPosition with
        | none => none
        | some f =>
            if head.x = f.x ∧ head.y = f.y then
              eatFood { g with snake := { g.snake with direction := dir, segments := segs1 } } draws
            else
              some { g with snake := { g.snake with direction := dir, segments := segs1.dropLast } }

/-- `handleKeyPress` (lines 96–146), restricted to its effect on the game
state (the `e.preventDefault()` calls are DOM-only). -/
def handleKeyPress (g : Game) (key : String) (draws : List Cell) : Option Game :=
  match g.gameState.state with
  | GState.MENU =>
      if key = "Enter" then startGame g draws else some g
  | GState.PLAYING =>
      if key = " " ∨ key = "Space" then
        some (pauseGame g)
      else if key = "ArrowUp" ∨ key = "w" ∨ key = "W" then
        some (if g.snake.direction.y = 0 then
                { g with snake := { g.snake with nextDirection := ⟨0, -1⟩ } }
              else g)
      else if key = "ArrowDown" ∨ key = "s" ∨ key = "S" then
        some (if g.snake.direction.y = 0 then
                { g with snake := { g.snake with nextDirection := ⟨0, 1⟩ } }
              else g)
      else if key = "ArrowLeft" ∨ key = "a" ∨ key = "A" then
        some (if g.snake.direction.x = 0 then
                { g with snake := { g.snake with nextDirection := ⟨-1, 0⟩ } }
              else g)
      else if key = "ArrowRight" ∨ key = "d" ∨ key = "D" then
        some (if g.snake.direction.x = 0 then
                { g with snake := { g.snake with nextDirection := ⟨1, 0⟩ } }
              else g)
      else
        some g
  | GState.PAUSED =>
      if key = " " ∨ key = "Space" then some (resumeGame g) else some g
  | GState.GAME_OVER =>
      if key = "Enter" then some (resetToMenu g) else some g

/-- `update` (lines 222–229): tick only in PLAYING, and only when enough
wall-clock time has elapsed; `elapsed` stands for the external timer test
`currentTime - lastMoveTime >= moveInterval`. -/
def update (g : Game) (elapsed : Bool) (draws : List Cell) : Option Game :=
  if g.gameState.state ≠ GState.PLAYING then
    some g
  else if elapsed then
    moveSnake g draws
  else
    some g

/-- The constructor's initial state (lines 20–36); `hs` is whatever
`loadHighScore()` returned from storage. -/
def initGame (hs : ℚ) : Game :=
  { gameState := { score := 0
                   highScore := hs
                   speed := INITIAL_SPEED
                   foodPosition := none
                   state := GState.MENU
                   foodEaten := 0 }
    snake := { segments := []
               direction := ⟨1, 0⟩
               nextDirection := ⟨1, 0⟩ }
    moveInterval := 1000 / INITIAL_SPEED }

/-- One externally triggered step of the game: a key event or an
animation-frame update. -/
def Step (g g' : Game) : Prop :=
  (∃ key draws, handleKeyPress g key draws = some g') ∨
  (∃ elapsed draws, update g elapsed draws = some g')

/-- Any number of steps. -/
def Steps : Game → Game → Prop := Relation.ReflTransGen Step

/-- States reachable from a fresh `SnakeGame` instance by any sequence of
key events and frame updates. -/
inductive Reachable : Game → Prop
  | init (hs : ℚ) : Reachable (initGame hs)
  | key {g g' : Game} (k : String) (d : List Cell) :
      Reachable g → handleKeyPress g k d = some g' → Reachable g'
  | tick {g g' : Game} (e : Bool) (d : List Cell) :
      Reachable g → update g e d = some g' → Reachable g'

/-- A cell inside the 21×12 grid: the negation of the wall test of
`moveSnake`. -/
def inBounds (c : Cell) : Prop :=
  0 ≤ c.x ∧ c.x < GRID_WIDTH ∧ 0 ≤ c.y ∧ c.y < GRID_HEIGHT

instance (c : Cell) : Decidable (inBounds c) := by
  unfold inBounds
  infer_instance

/-- The four unit direction vectors the key handler can install. -/
def dirOK (d : Cell) : Prop :=
  d = ⟨1, 0⟩ ∨ d = ⟨-1, 0⟩ ∨ d = ⟨0, 1⟩ ∨ d = ⟨0, -1⟩

/-- Speeds the progression rule can produce: `5 + 0.5·k` for `k ≤ 20`. -/
def speedOK (q : ℚ) : Prop :=
  ∃ k : ℕ, k ≤ 20 ∧ q = 5 + (k : ℚ) / 2

/-- The global state invariant carried through every reachable state. -/
def GameInv (g : Game) : Prop :=
  dirOK g.snake.direction ∧
  dirOK g.snake.nextDirection ∧
  g.snake.segments.Nodup ∧
  ((g.gameState.state = GState.PLAYING ∨ g.gameState.state = GState.PAUSED) →
    (∃ f, g.gameState.foodPosition = some f ∧ f ∉ g.snake.segments) ∧
    g.snake.segments.length = 3 + g.gameState.foodEaten) ∧
  speedOK g.gameState.speed ∧
  (∃ n : ℕ, g.gameState.score = (n : ℚ))

/-- The direction a movement key requests, read off the key groups of
`handleKeyPress`. -/
def requestedTurn (key : String) : Option Cell :=
  if key = "ArrowUp" ∨ key = "w" ∨ key = "W" then some ⟨0, -1⟩
  else if key = "ArrowDown" ∨ key = "s" ∨ key = "S" then some ⟨0, 1⟩
  else if key = "ArrowLeft" ∨ key = "a" ∨ key = "A" then some ⟨-1, 0⟩
  else if key = "ArrowRight" ∨ key = "d" ∨ key = "D" then some ⟨1, 0⟩
  else none

/-- A 180° reversal: both components negated. -/
def isReversal (cur req : Cell) : Prop :=
  req.x = -cur.x ∧ req.y = -cur.y

instance (a b : Cell) : Decidable (isReversal a b) := by
  unfold isReversal
  infer_instance

/-- The spec sentence under test for C1, as stated: in every reachable
PLAYING state a turn request is stored as NextDirection exactly when it is
not a reversal of the current direction, and a reversal leaves
NextDirection unchanged. -/
def ClaimC1 : Prop :=
  ∀ (g g' : Game) (key : String) (r : Cell) (d : List Cell),
    Reachable g → g.gameState.state = GState.PLAYING →
    requestedTurn key = some r →
    handleKeyPress g key d = some g' →
    g'.snake.nextDirection =
      (if isReversal g.snake.direction r then g.snake.nextDirection else r)

/-- A fresh instance with stored high score 0. -/
def gInit : Game := initGame 0

/-- The fresh instance after Enter on the menu, food drawn at (0,0). -/
def gPlay : Game := (handleKeyPress gInit "Enter" [⟨0, 0⟩]).getD gInit

/-- `gPlay` after one ArrowDown press: direction (1,0), buffered (0,1). -/
def gTurn : Game := (handleKeyPress gPlay "ArrowDown" []).getD gPlay

/-- `gPlay` after one tick (plain move, no food hit). -/
def gMove : Game := (moveSnake gPlay []).getD gInit

/-- A PLAYING state whose next tick eats the food at (11,6). -/
def gGrow : Game :=
  { gameState := { score := 0
                   highScore := 0
                   speed := 5
                   foodPosition := some ⟨11, 6⟩
                   state := GState.PLAYING
                   foodEaten := 0 }
    snake := { segments := [⟨10, 6⟩, ⟨9, 6⟩, ⟨8, 6⟩]
               direction := ⟨1, 0⟩
               nextDirection := ⟨1, 0⟩ }
    moveInterval := 200 }

/-- `gGrow` after the eating tick, respawn drawn at (0,0). -/
def gGrown : Game := (moveSnake gGrow [⟨0, 0⟩]).getD gInit

/-- A PLAYING state about to eat its 5th food item at speed 5. -/
def gFive : Game :=
  { gameState := { score := 0
                   highScore := 0
                   speed := 5
                   foodPosition := some ⟨0, 0⟩
                   state := GState.PLAYING
                   foodEaten := 4 }
    snake := { segments := [⟨10, 6⟩, ⟨9, 6⟩, ⟨8, 6⟩]
               direction := ⟨1, 0⟩
               nextDirection := ⟨1, 0⟩ }
    moveInterval := 200 }

/-- `gFive` after `eatFood`, respawn drawn at (1,1). -/
def gFive' : Game := (eatFood gFive [⟨1, 1⟩]).getD gInit

/-- `gPlay` paused with the space key. -/
def gPaused : Game := (handleKeyPress gPlay " " []).getD gInit

/-- `gPaused` resumed with the space key. -/
def gResumed : Game := (handleKeyPress gPaused " " []).getD gInit

theorem cellEq_eq_true_iff {a b : Cell} : cellEq a b = true ↔ a = b := by
  cases a; cases b
  simp [cellEq, Cell.mk.injEq]

theorem any_cellEq_right_iff {l : List Cell} {c : Cell} :
    (l.any fun segment => cellEq segment c) = true ↔ c ∈ l := by
  simp only [List.any_eq_true]
  constructor
  · rintro ⟨s, hs, he⟩
    rw [cellEq_eq_true_iff] at he
    exact he ▸ hs
  · intro hc
    exact ⟨c, hc, cellEq_eq_true_iff.mpr rfl⟩

theorem any_cellEq_left_iff {l : List Cell} {c : Cell} :
    (l.any fun segment => cellEq c segment) = true ↔ c ∈ l := by
  simp only [List.any_eq_true]
  constructor
  · rintro ⟨s, hs, he⟩
    rw [cellEq_eq_true_iff] at he
    exact he.symm ▸ hs
  · intro hc
    exact ⟨c, hc, cellEq_eq_true_iff.mpr rfl⟩

theorem wall_test_iff {c : Cell} :
    ¬(c.x < 0 ∨ GRID_WIDTH ≤ c.x ∨ c.y < 0 ∨ GRID_HEIGHT ≤ c.y) ↔ inBounds c := by
  unfold inBounds GRID_WIDTH GRID_HEIGHT
  omega

/-- A cell returned by `spawnFood` never lies on the snake. -/
theorem spawnFood_not_mem {segs : List Cell} {draws : List Cell} {c : Cell}
    (h : spawnFood segs draws = some c) : c ∉ segs := by
  induction draws with
  | nil => simp [spawnFood] at h
  | cons d rest ih =>
      rw [spawnFood] at h
      split at h
      · exact ih h
      · next hany =>
          cases h
          intro hc
          exact hany (any_cellEq_right_iff.mpr hc)

/-- Field-level description of `gameOver`. -/
theorem gameOver_eq (g : Game) :
    (gameOver g).snake = g.snake ∧
    (gameOver g).moveInterval = g.moveInterval ∧
    (gameOver g).gameState.state = GState.GAME_OVER ∧
    (gameOver g).gameState.score = g.gameState.score ∧
    (gameOver g).gameState.speed = g.gameState.speed ∧
    (gameOver g).gameState.foodEaten = g.gameState.foodEaten ∧
    (gameOver g).gameState.foodPosition = g.gameState.foodPosition ∧
    (gameOver g).gameState.highScore = max g.gameState.highScore g.gameState.score := by
  by_cases hlt : g.gameState.highScore < g.gameState.score
  · simp [gameOver, hlt, max_eq_right (le_of_lt hlt)]
  · have hle : g.gameState.score ≤ g.gameState.highScore := not_lt.mp hlt
    simp [gameOver, hlt, max_eq_left hle]

/-- Field-level description of a successful `eatFood`. -/
theorem eatFood_eq {g : Game} {d : List Cell} {g' : Game}
    (h : eatFood g d = some g') :
    ∃ f, spawnFood g.snake.segments d = some f ∧
      g'.snake = g.snake ∧
      g'.gameState.state = g.gameState.state ∧
      g'.gameState.highScore = g.gameState.highScore ∧
      g'.gameState.foodPosition = some f ∧
      g'.gameState.score = g.gameState.score + FOOD_POINTS +
        (g.snake.segments.length : ℚ) + ((⌊g.gameState.speed⌋ : ℤ) : ℚ) * 2 ∧
      g'.gameState.foodEaten = g.gameState.foodEaten + 1 ∧
      g'.gameState.speed =
        (if (g.gameState.foodEaten + 1) % 5 = 0 ∧ g.gameState.speed < MAX_SPEED then
           min (g.gameState.speed + SPEED_INCREMENT) MAX_SPEED
         else g.gameState.speed) := by
  cases hsp : spawnFood g.snake.segments d with
  | none =>
      rw [eatFood, hsp] at h
      cases h
  | some f =>
      rw [eatFood, hsp] at h
      injection h with h
      subst h
      exact ⟨f, rfl, rfl, rfl, rfl, rfl, rfl, rfl, rfl⟩

/-- Exhaustive description of a successful `moveSnake`: wall or self
collision, growth, or plain movement. -/
theorem moveSnake_spec {g : Game} {d : List Cell} {g' : Game} {h0 : Cell} {t : List Cell}
    (hseg : g.snake.segments = h0 :: t)
    (hmv : moveSnake g d = some g') :
    ((¬ inBounds (stepCell h0 g.snake.nextDirection) ∨
        stepCell h0 g.snake.nextDirection ∈ t) ∧
      g' = gameOver { g with snake :=
        { segments := h0 :: t
          direction := g.snake.nextDirection
          nextDirection := g.snake.nextDirection } }) ∨
    (inBounds (stepCell h0 g.snake.nextDirection) ∧
      stepCell h0 g.snake.nextDirection ∉ t ∧
      g.gameState.foodPosition = some (stepCell h0 g.snake.nextDirection) ∧
      eatFood { g with snake :=
        { segments := stepCell h0 g.snake.nextDirection :: h0 :: t
          direction := g.snake.nextDirection
          nextDirection := g.snake.nextDirection } } d = some g') ∨
    (inBounds (stepCell h0 g.snake.nextDirection) ∧
      stepCell h0 g.snake.nextDirection ∉ t ∧
      (∃ f, g.gameState.foodPosition = some f ∧ f ≠ stepCell h0 g.snake.nextDirection) ∧
      g' = { g with snake :=
        { segments := (stepCell h0 g.snake.nextDirection :: h0 :: t).dropLast
          direction := g.snake.nextDirection
          nextDirection := g.snake.nextDirection } }) := by
  simp only [moveSnake, hseg] at hmv
  split at hmv
  · next hw =>
      injection hmv with hmv
      exact Or.inl ⟨Or.inl fun hin => (wall_test_iff.mpr hin) hw, hmv.symm⟩
  · next hw =>
      split at hmv
      · next hany =>
          injection hmv with hmv
          exact Or.inl ⟨Or.inr (any_cellEq_left_iff.mp hany), hmv.symm⟩
      · next hany =>
          have hnin : stepCell h0 g.snake.nextDirection ∉ t := fun hc =>
            hany (any_cellEq_left_iff.mpr hc)
          have hin : inBounds (stepCell h0 g.snake.nextDirection) := wall_test_iff.mp hw
          split at hmv
          · exact Option.noConfusion hmv
          · rename_i f heq
            split at hmv
            · rename_i heat
              have hf : f = stepCell h0 g.snake.nextDirection :=
                Cell.ext heat.1.symm heat.2.symm
              exact Or.inr (Or.inl ⟨hin, hnin, hf ▸ heq, hmv⟩)
            · rename_i heat
              injection hmv with hmv
              refine Or.inr (Or.inr ⟨hin, hnin, ⟨f, heq, ?_⟩, hmv.symm⟩)
              intro hf
              subst hf
              exact heat ⟨rfl, rfl⟩

theorem speedOK_bounds {q : ℚ} (h : speedOK q) : 5 ≤ q ∧ q ≤ 15 := by
  obtain ⟨k, hk, rfl⟩ := h
  have h1 : (0 : ℚ) ≤ (k : ℚ) := Nat.cast_nonneg k
  have h2 : (k : ℚ) ≤ 20 := by exact_mod_cast hk
  constructor <;> linarith

/-- The progression step of `eatFood` keeps the speed in the
`5 + 0.5·k, k ≤ 20` family. -/
theorem speedOK_step {q : ℚ} (h : speedOK q) (c : Prop) [Decidable c] :
    speedOK (if c ∧ q < MAX_SPEED then min (q + SPEED_INCREMENT) MAX_SPEED else q) := by
  split
  · next hc =>
      obtain ⟨k, hk, rfl⟩ := h
      have hlt : (k : ℚ) < 20 := by
        have h2 := hc.2
        rw [MAX_SPEED] at h2
        linarith
      have hk19 : k ≤ 19 := by
        have : k < 20 := by exact_mod_cast hlt
        omega
      have hle : 5 + (k : ℚ) / 2 + SPEED_INCREMENT ≤ MAX_SPEED := by
        rw [SPEED_INCREMENT, MAX_SPEED]
        have : (k : ℚ) ≤ 19 := by exact_mod_cast hk19
        linarith
      refine ⟨k + 1, by omega, ?_⟩
      rw [min_eq_left hle, SPEED_INCREMENT]
      push_cast
      ring
  · exact h

/-- The score increment of `eatFood` keeps the score a natural number. -/
theorem scoreNat_step {q sp : ℚ} {len : ℕ} (hq : ∃ n : ℕ, q = (n : ℚ))
    (hf : 0 ≤ ⌊sp⌋) :
    ∃ n : ℕ, q + FOOD_POINTS + (len : ℚ) + ((⌊sp⌋ : ℤ) : ℚ) * 2 = (n : ℚ) := by
  obtain ⟨n, rfl⟩ := hq
  obtain ⟨m, hm⟩ : ∃ m : ℕ, ⌊sp⌋ = (m : ℤ) := ⟨(⌊sp⌋).toNat, (Int.toNat_of_nonneg hf).symm⟩
  refine ⟨n + 10 + len + 2 * m, ?_⟩
  rw [FOOD_POINTS, hm]
  push_cast
  ring

/-- Advancing by a unit direction always leaves the cell. -/
theorem stepCell_ne {c d : Cell} (hd : dirOK d) : stepCell c d ≠ c := by
  rcases hd with rfl | rfl | rfl | rfl <;>
    · intro he
      have hx := congrArg Cell.x he
      have hy := congrArg Cell.y he
      simp only [stepCell] at hx hy
      omega

theorem inv_init (hs : ℚ) : GameInv (initGame hs) := by
  refine ⟨Or.inl rfl, Or.inl rfl, List.nodup_nil, ?_, ⟨0, by omega, ?_⟩, ⟨0, by norm_num [initGame]⟩⟩
  · rintro (h | h) <;> exact GState.noConfusion h
  · norm_num [initGame, INITIAL_SPEED]

theorem inv_startGame {g g' : Game} {d : List Cell} (h : startGame g d = some g') :
    GameInv g' := by
  simp only [startGame] at h
  cases hsp : spawnFood [⟨10, 6⟩, ⟨9, 6⟩, ⟨8, 6⟩] d with
  | none =>
      rw [hsp] at h
      cases h
  | some f =>
      rw [hsp] at h
      injection h with h
      subst h
      refine ⟨Or.inl rfl, Or.inl rfl, ?_, ?_, ⟨0, by omega, ?_⟩, ⟨0, by norm_num⟩⟩
      · show ([⟨10, 6⟩, ⟨9, 6⟩, ⟨8, 6⟩] : List Cell).Nodup
        decide
      · exact fun _ => ⟨⟨f, rfl, spawnFood_not_mem hsp⟩, rfl⟩
      · show INITIAL_SPEED = 5 + ((0 : ℕ) : ℚ) / 2
        norm_num [INITIAL_SPEED]

theorem inv_pause {g : Game} (hInv : GameInv g) (hst : g.gameState.state = GState.PLAYING) :
    GameInv (pauseGame g) := by
  obtain ⟨h1, h2, h3, h4, h5, h6⟩ := hInv
  exact ⟨h1, h2, h3, fun _ => h4 (Or.inl hst), h5, h6⟩

theorem inv_resume {g : Game} (hInv : GameInv g) (hst : g.gameState.state = GState.PAUSED) :
    GameInv (resumeGame g) := by
  obtain ⟨h1, h2, h3, h4, h5, h6⟩ := hInv
  exact ⟨h1, h2, h3, fun _ => h4 (Or.inr hst), h5, h6⟩

theorem inv_resetToMenu {g : Game} (hInv : GameInv g) : GameInv (resetToMenu g) := by
  obtain ⟨h1, h2, h3, h4, h5, h6⟩ := hInv
  refine ⟨h1, h2, h3, ?_, h5, h6⟩
  rintro (h | h) <;> exact GState.noConfusion h

theorem inv_setNextDir {g : Game} {nd : Cell} (hInv : GameInv g) (hd : dirOK nd) :
    GameInv { g with snake := { g.snake with nextDirection := nd } } := by
  obtain ⟨h1, h2, h3, h4, h5, h6⟩ := hInv
  exact ⟨h1, hd, h3, h4, h5, h6⟩

theorem inv_eatFood {g g' : Game} {d : List Cell}
    (h : eatFood g d = some g')
    (hdir : dirOK g.snake.direction)
    (hnext : dirOK g.snake.nextDirection)
    (hnodup : g.snake.segments.Nodup)
    (hlen : g.snake.segments.length = 3 + g.gameState.foodEaten + 1)
    (hspeed : speedOK g.gameState.speed)
    (hscore : ∃ n : ℕ, g.gameState.score = (n : ℚ)) :
    GameInv g' := by
  obtain ⟨f, hsp, hsnake, hstate, hhs, hfp, hsc, hfe, hspd⟩ := eatFood_eq h
  refine ⟨?_, ?_, ?_, ?_, ?_, ?_⟩
  · rw [hsnake]; exact hdir
  · rw [hsnake]; exact hnext
  · rw [hsnake]; exact hnodup
  · intro _
    refine ⟨⟨f, hfp, ?_⟩, ?_⟩
    · rw [hsnake]; exact spawnFood_not_mem hsp
    · rw [hsnake, hlen, hfe]
      omega
  · rw [hspd]
    exact speedOK_step hspeed _
  · rw [hsc]
    have hb := (speedOK_bounds hspeed).1
    exact scoreNat_step hscore (Int.floor_nonneg.mpr (by linarith))

theorem inv_moveSnake {g g' : Game} {d : List Cell}
    (hInv : GameInv g) (hst : g.gameState.state = GState.PLAYING)
    (h : moveSnake g d = some g') : GameInv g' := by
  obtain ⟨hdir, hnext, hnodup, hfood, hspeed, hscore⟩ := hInv
  obtain ⟨⟨f, hfp, hfnot⟩, hlen⟩ := hfood (Or.inl hst)
  obtain ⟨h0, t, hseg⟩ : ∃ h0 t, g.snake.segments = h0 :: t := by
    cases hs : g.snake.segments with
    | nil =>
        rw [hs] at hlen
        simp only [List.length_nil] at hlen
        exact absurd hlen (by omega)
    | cons a l => exact ⟨a, l, rfl⟩
  have hnodup' : (h0 :: t).Nodup := hseg ▸ hnodup
  rcases moveSnake_spec hseg h with ⟨hc, heq⟩ | ⟨hin, hnin, hfp', heat⟩ |
    ⟨hin, hnin, ⟨f2, hfp2, hne⟩, heq⟩
  · subst heq
    obtain ⟨gsn, gmi, gst, gsc, gsp, gfe, gfp, ghs⟩ :=
      gameOver_eq { g with snake :=
        { segments := h0 :: t
          direction := g.snake.nextDirection
          nextDirection := g.snake.nextDirection } }
    refine ⟨?_, ?_, ?_, ?_, ?_, ?_⟩
    · rw [gsn]; exact hnext
    · rw [gsn]; exact hnext
    · rw [gsn]; exact hnodup'
    · intro hc2
      rw [gst] at hc2
      rcases hc2 with hx | hx <;> exact GState.noConfusion hx
    · rw [gsp]; exact hspeed
    · rw [gsc]; exact hscore
  · apply inv_eatFood heat
    · exact hnext
    · exact hnext
    · refine List.nodup_cons.mpr ⟨?_, hnodup'⟩
      intro hmem
      rcases List.mem_cons.mp hmem with hh | ht2
      · exact stepCell_ne hnext hh
      · exact hnin ht2
    · show (stepCell h0 g.snake.nextDirection :: h0 :: t).length =
        3 + g.gameState.foodEaten + 1
      have hl : (h0 :: t).length = 3 + g.gameState.foodEaten := hseg ▸ hlen
      simp only [List.length_cons] at hl ⊢
      omega
    · exact hspeed
    · exact hscore
  · subst heq
    have hn : (stepCell h0 g.snake.nextDirection :: h0 :: t).Nodup := by
      refine List.nodup_cons.mpr ⟨?_, hnodup'⟩
      intro hmem
      rcases List.mem_cons.mp hmem with hh | ht2
      · exact stepCell_ne hnext hh
      · exact hnin ht2
    refine ⟨hnext, hnext, hn.sublist (List.dropLast_sublist _), ?_, hspeed, hscore⟩
    intro _
    constructor
    · refine ⟨f2, hfp2, ?_⟩
      intro hmem
      have hmem2 := List.mem_of_mem_dropLast hmem
      rcases List.mem_cons.mp hmem2 with hh | ht2
      · exact hne hh
      · have hf2 : f2 = f := by
          rw [hfp] at hfp2
          exact (Option.some_inj.mp hfp2).symm
        apply hfnot
        rw [hseg]
        exact hf2 ▸ ht2
    · show (stepCell h0 g.snake.nextDirection :: h0 :: t).dropLast.length =
        3 + g.gameState.foodEaten
      have hl : (h0 :: t).length = 3 + g.gameState.foodEaten := hseg ▸ hlen
      simp only [List.length_dropLast, List.length_cons] at hl ⊢
      omega

theorem inv_handleKeyPress {g g' : Game} {k : String} {d : List Cell}
    (hInv : GameInv g) (h : handleKeyPress g k d = some g') : GameInv g' := by
  cases hst : g.gameState.state with
  | MENU =>
      simp only [handleKeyPress, hst] at h
      split at h
      · exact inv_startGame h
      · injection h with h; subst h; exact hInv
  | PLAYING =>
      simp only [handleKeyPress, hst] at h
      split at h
      · injection h with h; subst h; exact inv_pause hInv hst
      · split at h
        · injection h with h; subst h
          split
          · exact inv_setNextDir hInv (Or.inr (Or.inr (Or.inr rfl)))
          · exact hInv
        · split at h
          · injection h with h; subst h
            split
            · exact inv_setNextDir hInv (Or.inr (Or.inr (Or.inl rfl)))
            · exact hInv
          · split at h
            · injection h with h; subst h
              split
              · exact inv_setNextDir hInv (Or.inr (Or.inl rfl))
              · exact hInv
            · split at h
              · injection h with h; subst h
                split
                · exact inv_setNextDir hInv (Or.inl rfl)
                · exact hInv
              · injection h with h; subst h; exact hInv
  | PAUSED =>
      simp only [handleKeyPress, hst] at h
      split at h
      · injection h with h; subst h; exact inv_resume hInv hst
      · injection h with h; subst h; exact hInv
  | GAME_OVER =>
      simp only [handleKeyPress, hst] at h
      split at h
      · injection h with h; subst h; exact inv_resetToMenu hInv
      · injection h with h; subst h; exact hInv

theorem inv_update {g g' : Game} {e : Bool} {d : List Cell}
    (hInv : GameInv g) (h : update g e d = some g') : GameInv g' := by
  rw [update] at h
  split at h
  · injection h with h; subst h; exact hInv
  · next hne =>
      split at h
      · exact inv_moveSnake hInv (not_ne_iff.mp hne) h
      · injection h with h; subst h; exact hInv

theorem inv_reachable {g : Game} (h : Reachable g) : GameInv g := by
  induction h with
  | init hs => exact inv_init hs
  | key k d a hstep ih => exact inv_handleKeyPress ih hstep
  | tick e d a hstep ih => exact inv_update ih hstep

/-- Pausing from PLAYING and resuming restores the exact state. -/
theorem resume_pause {g : Game} (hst : g.gameState.state = GState.PLAYING) :
    resumeGame (pauseGame g) = g := by
  apply Game.ext
  · apply GameData.ext
    · rfl
    · rfl
    · rfl
    · rfl
    · exact hst.symm
    · rfl
  · rfl
  · rfl

theorem highScore_startGame {g g' : Game} {d : List Cell} (h : startGame g d = some g') :
    g'.gameState.highScore = g.gameState.highScore := by
  simp only [startGame] at h
  cases hsp : spawnFood [⟨10, 6⟩, ⟨9, 6⟩, ⟨8, 6⟩] d with
  | none => rw [hsp] at h; cases h
  | some f => rw [hsp] at h; injection h with h; subst h; rfl

theorem highScore_key {g g' : Game} {k : String} {d : List Cell}
    (h : handleKeyPress g k d = some g') :
    g'.gameState.highScore = g.gameState.highScore := by
  cases hst : g.gameState.state <;> simp only [handleKeyPress, hst] at h
  · split at h
    · exact highScore_startGame h
    · injection h with h; subst h; rfl
  · split at h
    · injection h with h; subst h; rfl
    · split at h
      · injection h with h; subst h; split <;> rfl
      · split at h
        · injection h with h; subst h; split <;> rfl
        · split at h
          · injection h with h; subst h; split <;> rfl
          · split at h
            · injection h with h; subst h; split <;> rfl
            · injection h with h; subst h; rfl
  · split at h <;> (injection h with h; subst h; rfl)
  · split at h <;> (injection h with h; subst h; rfl)

theorem highScore_moveSnake {g g' : Game} {d : List Cell} (h : moveSnake g d = some g') :
    g'.gameState.highScore = g.gameState.highScore ∨
    (g'.gameState.state = GState.GAME_OVER ∧
      g'.gameState.score = g.gameState.score ∧
      g'.gameState.highScore = max g.gameState.highScore g.gameState.score) := by
  cases hseg : g.snake.segments with
  | nil =>
      simp only [moveSnake] at h
      rw [hseg] at h
      cases h
  | cons h0 t =>
      rcases moveSnake_spec hseg h with ⟨_, heq⟩ | ⟨_, _, _, heat⟩ | ⟨_, _, _, heq⟩
      · subst heq
        obtain ⟨gsn, gmi, gst, gsc, gsp, gfe, gfp, ghs⟩ :=
          gameOver_eq { g with snake :=
            { segments := h0 :: t
              direction := g.snake.nextDirection
              nextDirection := g.snake.nextDirection } }
        exact Or.inr ⟨gst, gsc, ghs⟩
      · obtain ⟨f, _, _, _, hhs, _, _, _, _⟩ := eatFood_eq heat
        exact Or.inl hhs
      · subst heq; exact Or.inl rfl

/-- C2: in every state reachable from a fresh game by any sequence of key
events and frame updates, the snake's segment list contains no two
segments at the same cell. -/
theorem C2_segments_nodup {g : Game} (h : Reachable g) : g.snake.segments.Nodup :=
  (inv_reachable h).2.2.1

theorem C2_segments_nodup_witness : gPlay.snake.segments.Nodup :=
  C2_segments_nodup (Reachable.key "Enter" [⟨0, 0⟩] (Reachable.init 0) rfl)

/-- C9: while a game is running (PLAYING or PAUSED, i.e. from the
MENU→PLAYING transition until game over), the number of snake segments is
exactly 3 plus the foodEaten counter of the current game. -/
theorem C9_length_three_plus_foodEaten {g : Game} (h : Reachable g)
    (hst : g.gameState.state = GState.PLAYING ∨ g.gameState.state = GState.PAUSED) :
    g.snake.segments.length = 3 + g.gameState.foodEaten :=
  ((inv_reachable h).2.2.2.1 hst).2

theorem C9_witness : gPlay.snake.segments.length = 3 + gPlay.gameState.foodEaten :=
  C9_length_three_plus_foodEaten
    (Reachable.key "Enter" [⟨0, 0⟩] (Reachable.init 0) rfl) (Or.inl rfl)

/-- C6: in every reachable PLAYING state the food cell is disjoint from
every snake segment, and the rejection-sampling `spawnFood` only ever
returns a cell not occupied by any current segment. -/
theorem C6_food_disjoint_from_snake :
    (∀ g : Game, Reachable g → g.gameState.state = GState.PLAYING →
      ∃ f, g.gameState.foodPosition = some f ∧ f ∉ g.snake.segments) ∧
    (∀ (segs draws : List Cell) (c : Cell), spawnFood segs draws = some c → c ∉ segs) :=
  ⟨fun _ h hst => ((inv_reachable h).2.2.2.1 (Or.inl hst)).1,
   fun _ _ _ hsp => spawnFood_not_mem hsp⟩

theorem C6_witness :
    (∃ f, gPlay.gameState.foodPosition = some f ∧ f ∉ gPlay.snake.segments) ∧
    ((⟨0, 0⟩ : Cell) ∉ ([⟨10, 6⟩, ⟨9, 6⟩, ⟨8, 6⟩] : List Cell)) :=
  ⟨C6_food_disjoint_from_snake.1 gPlay
      (Reachable.key "Enter" [⟨0, 0⟩] (Reachable.init 0) rfl) rfl,
   C6_food_disjoint_from_snake.2 [⟨10, 6⟩, ⟨9, 6⟩, ⟨8, 6⟩] [⟨0, 0⟩] ⟨0, 0⟩ rfl⟩

/-- C10: in every reachable state the speed is `5 + 0.5·k` for some
`k ≤ 20`, hence a dyadic rational `n/2` with `|n| ≤ 30` (exactly
representable in binary floating point, so `Math.floor` and the `×2`
speed bonus are exact), the speed bonus is an even integer, and the score
stays a natural number. -/
theorem C10_speed_family {g : Game} (h : Reachable g) :
    (∃ k : ℕ, k ≤ 20 ∧ g.gameState.speed = 5 + (k : ℚ) / 2) ∧
    (∃ n : ℤ, n.natAbs ≤ 30 ∧ g.gameState.speed = (n : ℚ) / 2) ∧
    (∃ m : ℤ, (⌊g.gameState.speed⌋ : ℤ) * 2 = 2 * m) ∧
    (∃ n : ℕ, g.gameState.score = (n : ℚ)) := by
  have hInv := inv_reachable h
  obtain ⟨k, hk, hs⟩ := hInv.2.2.2.2.1
  refine ⟨⟨k, hk, hs⟩, ⟨10 + (k : ℤ), by omega, ?_⟩,
    ⟨⌊g.gameState.speed⌋, mul_comm _ _⟩, hInv.2.2.2.2.2⟩
  rw [hs]
  push_cast
  ring

theorem C10_witness :
    (∃ k : ℕ, k ≤ 20 ∧ gPlay.gameState.speed = 5 + (k : ℚ) / 2) ∧
    (∃ n : ℤ, n.natAbs ≤ 30 ∧ gPlay.gameState.speed = (n : ℚ) / 2) ∧
    (∃ m : ℤ, (⌊gPlay.gameState.speed⌋ : ℤ) * 2 = 2 * m) ∧
    (∃ n : ℕ, gPlay.gameState.score = (n : ℚ)) :=
  C10_speed_family (Reachable.key "Enter" [⟨0, 0⟩] (Reachable.init 0) rfl)

/-- C7: the high score never decreases across any step or sequence of
steps; it changes only on a game over, to the current score, and only when
that score strictly exceeds the stored high score. -/
theorem C7_highScore_monotone :
    (∀ g g' : Game, Step g g' →
      g.gameState.highScore ≤ g'.gameState.highScore ∧
      (g'.gameState.highScore ≠ g.gameState.highScore →
        g'.gameState.state = GState.GAME_OVER ∧
        g'.gameState.highScore = g'.gameState.score ∧
        g.gameState.highScore < g'.gameState.score)) ∧
    (∀ g g' : Game, Steps g g' →
      g.gameState.highScore ≤ g'.gameState.highScore) := by
  have hstep : ∀ g g' : Game, Step g g' →
      g.gameState.highScore ≤ g'.gameState.highScore ∧
      (g'.gameState.highScore ≠ g.gameState.highScore →
        g'.gameState.state = GState.GAME_OVER ∧
        g'.gameState.highScore = g'.gameState.score ∧
        g.gameState.highScore < g'.gameState.score) := by
    rintro g g' (⟨k, d, hk⟩ | ⟨e, d, hu⟩)
    · have hhs := highScore_key hk
      rw [hhs]
      exact ⟨le_refl _, fun hne => absurd rfl hne⟩
    · rw [update] at hu
      split at hu
      · injection hu with hu; subst hu
        exact ⟨le_refl _, fun hne => absurd rfl hne⟩
      · split at hu
        · rcases highScore_moveSnake hu with heq | ⟨hgo, hsc, hmax⟩
          · rw [heq]
            exact ⟨le_refl _, fun hne => absurd rfl hne⟩
          · constructor
            · rw [hmax]; exact le_max_left _ _
            · intro hne
              rw [hmax] at hne
              have hlt : g.gameState.highScore < g.gameState.score := by
                rcases lt_or_le g.gameState.highScore g.gameState.score with h1 | h1
                · exact h1
                · exact absurd (max_eq_left h1) hne
              refine ⟨hgo, ?_, ?_⟩
              · rw [hmax, hsc, max_eq_right (le_of_lt hlt)]
              · rw [hsc]; exact hlt
        · injection hu with hu; subst hu
          exact ⟨le_refl _, fun hne => absurd rfl hne⟩
  refine ⟨hstep, ?_⟩
  intro g g' hs
  induction hs with
  | refl => exact le_refl _
  | tail hab hbc ih => exact le_trans ih (hstep _ _ hbc).1

theorem C7_witness :
    gInit.gameState.highScore ≤ gPlay.gameState.highScore ∧
    (gPlay.gameState.highScore ≠ gInit.gameState.highScore →
      gPlay.gameState.state = GState.GAME_OVER ∧
      gPlay.gameState.highScore = gPlay.gameState.score ∧
      gInit.gameState.highScore < gPlay.gameState.score) :=
  C7_highScore_monotone.1 gInit gPlay (Or.inl ⟨"Enter", [⟨0, 0⟩], rfl⟩)

/-- C8: pausing from PLAYING and immediately resuming changes only the
state field (PLAYING → PAUSED → PLAYING); the snake, food, score, speed
and foodEaten come back identical (the intermediate state differs from
the original exactly in the state field). -/
theorem C8_pause_resume_roundtrip {g g1 g2 : Game} (d1 d2 : List Cell)
    (hst : g.gameState.state = GState.PLAYING)
    (h1 : handleKeyPress g " " d1 = some g1)
    (h2 : handleKeyPress g1 " " d2 = some g2) :
    g1 = { g with gameState := { g.gameState with state := GState.PAUSED } } ∧ g2 = g := by
  simp only [handleKeyPress, hst] at h1
  split at h1
  · injection h1 with h1
    subst h1
    have hst1 : (pauseGame g).gameState.state = GState.PAUSED := rfl
    simp only [handleKeyPress, hst1] at h2
    split at h2
    · injection h2 with h2
      subst h2
      exact ⟨rfl, resume_pause hst⟩
    · next hc => exact absurd (Or.inl trivial) hc
  · next hc => exact absurd (Or.inl trivial) hc

theorem C8_witness :
    gPaused = { gPlay with gameState := { gPlay.gameState with state := GState.PAUSED } } ∧
    gResumed = gPlay :=
  C8_pause_resume_roundtrip [] [] rfl rfl rfl

/-- C3: a tick collides exactly when the committed-direction head leaves
the 21×12 grid or lands on a body segment of index ≥ 1; the collision
tests run before the food test, so a colliding move never touches the
segment list, score or foodEaten, even if it would have reached food. -/
theorem C3_collision_iff {g g' : Game} {h0 : Cell} {t : List Cell} (d : List Cell)
    (hst : g.gameState.state = GState.PLAYING)
    (hseg : g.snake.segments = h0 :: t)
    (hmv : moveSnake g d = some g') :
    (g'.gameState.state = GState.GAME_OVER ↔
      (¬ inBounds (stepCell h0 g.snake.nextDirection) ∨
        stepCell h0 g.snake.nextDirection ∈ t)) ∧
    (g'.gameState.state = GState.GAME_OVER →
      g'.snake.segments = g.snake.segments ∧
      g'.gameState.score = g.gameState.score ∧
      g'.gameState.foodEaten = g.gameState.foodEaten) := by
  rcases moveSnake_spec hseg hmv with ⟨hc, heq⟩ | ⟨hin, hnin, hfp, heat⟩ |
    ⟨hin, hnin, hf, heq⟩
  · subst heq
    obtain ⟨gsn, gmi, gst, gsc, gsp, gfe, gfp, ghs⟩ :=
      gameOver_eq { g with snake :=
        { segments := h0 :: t
          direction := g.snake.nextDirection
          nextDirection := g.snake.nextDirection } }
    constructor
    · rw [gst]
      exact iff_of_true rfl hc
    · intro _
      refine ⟨?_, gsc, gfe⟩
      rw [gsn, hseg]
  · obtain ⟨f, hsp, hsnake, hstate, hhs, hfp2, hsc, hfe, hspd⟩ := eatFood_eq heat
    have hstP : g'.gameState.state = GState.PLAYING := by
      rw [hstate]; exact hst
    constructor
    · constructor
      · intro hgo
        rw [hstP] at hgo
        exact absurd hgo (by decide)
      · rintro (hx | hx)
        · exact absurd hin hx
        · exact absurd hx hnin
    · intro hgo
      rw [hstP] at hgo
      exact absurd hgo (by decide)
  · subst heq
    constructor
    · constructor
      · intro hgo
        have hgo2 : g.gameState.state = GState.GAME_OVER := hgo
        rw [hst] at hgo2
        exact GState.noConfusion hgo2
      · rintro (hx | hx)
        · exact absurd hin hx
        · exact absurd hx hnin
    · intro hgo
      have hgo2 : g.gameState.state = GState.GAME_OVER := hgo
      rw [hst] at hgo2
      exact GState.noConfusion hgo2

theorem C3_witness :
    (gMove.gameState.state = GState.GAME_OVER ↔
      (¬ inBounds (stepCell ⟨10, 6⟩ gPlay.snake.nextDirection) ∨
        stepCell ⟨10, 6⟩ gPlay.snake.nextDirection ∈ [⟨9, 6⟩, ⟨8, 6⟩])) ∧
    (gMove.gameState.state = GState.GAME_OVER →
      gMove.snake.segments = gPlay.snake.segments ∧
      gMove.gameState.score = gPlay.gameState.score ∧
      gMove.gameState.foodEaten = gPlay.gameState.foodEaten) :=
  C3_collision_iff [] rfl rfl rfl

/-- C4: a tick that eats the food raises the score by exactly
10 + (length after growth) + ⌊speed before any speed change⌋·2 and the
foodEaten counter by exactly 1 (the original length is `t.length + 1`, so
the length after growth is `t.length + 2`). -/
theorem C4_score_on_eat {g g' : Game} {h0 : Cell} {t : List Cell} (d : List Cell)
    (hseg : g.snake.segments = h0 :: t)
    (hin : inBounds (stepCell h0 g.snake.nextDirection))
    (hnin : stepCell h0 g.snake.nextDirection ∉ t)
    (hfp : g.gameState.foodPosition = some (stepCell h0 g.snake.nextDirection))
    (hmv : moveSnake g d = some g') :
    g'.gameState.score = g.gameState.score + 10 + ((t.length + 2 : ℕ) : ℚ) +
      ((⌊g.gameState.speed⌋ : ℤ) : ℚ) * 2 ∧
    g'.gameState.foodEaten = g.gameState.foodEaten + 1 := by
  rcases moveSnake_spec hseg hmv with ⟨hc, _⟩ | ⟨_, _, _, heat⟩ | ⟨_, _, ⟨f, hfp2, hne⟩, _⟩
  · rcases hc with hx | hx
    · exact absurd hin hx
    · exact absurd hx hnin
  · obtain ⟨f, hsp, hsnake, hstate, hhs, hfp2, hsc, hfe, hspd⟩ := eatFood_eq heat
    exact ⟨hsc, hfe⟩
  · rw [hfp] at hfp2
    exact absurd (Option.some_inj.mp hfp2).symm hne

theorem C4_witness :
    gGrown.gameState.score = gGrow.gameState.score + 10 +
      ((([⟨9, 6⟩, ⟨8, 6⟩] : List Cell).length + 2 : ℕ) : ℚ) +
      ((⌊gGrow.gameState.speed⌋ : ℤ) : ℚ) * 2 ∧
    gGrown.gameState.foodEaten = gGrow.gameState.foodEaten + 1 :=
  C4_score_on_eat [⟨0, 0⟩] rfl (by decide) (by decide) rfl rfl

/-- C5: after eating, the speed is raised by 0.5 exactly when the updated
foodEaten count is a multiple of 5, clamped to at most 15 and never below
the initial 5 (given the invariant bounds 5 ≤ speed ≤ 15); in particular
the 5th food item raises the speed from 5 to 5.5. -/
theorem C5_speed_progression :
    (∀ (g g' : Game) (d : List Cell),
      5 ≤ g.gameState.speed → g.gameState.speed ≤ 15 →
      eatFood g d = some g' →
      g'.gameState.speed =
        (if (g.gameState.foodEaten + 1) % 5 = 0 then
          min (g.gameState.speed + 1/2) 15
        else g.gameState.speed) ∧
      5 ≤ g'.gameState.speed ∧ g'.gameState.speed ≤ 15) ∧
    (∀ (g g' : Game) (d : List Cell),
      g.gameState.foodEaten = 4 → g.gameState.speed = 5 →
      eatFood g d = some g' → g'.gameState.speed = 11/2) := by
  constructor
  · intro g g' d hb1 hb2 heat
    obtain ⟨f, _, _, _, _, _, _, _, hspd⟩ := eatFood_eq heat
    have hformula : g'.gameState.speed =
        (if (g.gameState.foodEaten + 1) % 5 = 0 then
          min (g.gameState.speed + 1/2) 15
        else g.gameState.speed) := by
      rw [hspd]
      by_cases hc : (g.gameState.foodEaten + 1) % 5 = 0
      · by_cases hlt : g.gameState.speed < MAX_SPEED
        · rw [if_pos ⟨hc, hlt⟩, if_pos hc, SPEED_INCREMENT, MAX_SPEED]
        · rw [if_neg (fun hand => hlt hand.2), if_pos hc]
          have h15 : g.gameState.speed = 15 := by
            have h2 := not_lt.mp hlt
            rw [MAX_SPEED] at h2
            linarith
          rw [h15, min_eq_right (by norm_num : (15 : ℚ) ≤ 15 + 1/2)]
      · rw [if_neg (fun hand => hc hand.1), if_neg hc]
    refine ⟨hformula, ?_, ?_⟩
    · rw [hformula]
      by_cases hc : (g.gameState.foodEaten + 1) % 5 = 0
      · rw [if_pos hc]
        exact le_min (by linarith) (by norm_num)
      · rw [if_neg hc]; exact hb1
    · rw [hformula]
      by_cases hc : (g.gameState.foodEaten + 1) % 5 = 0
      · rw [if_pos hc]; exact min_le_right _ _
      · rw [if_neg hc]; exact hb2
  · intro g g' d hfe hsp heat
    obtain ⟨f, _, _, _, _, _, _, _, hspd⟩ := eatFood_eq heat
    rw [hspd, hfe, hsp]
    rw [if_pos ⟨by norm_num, by rw [MAX_SPEED]; norm_num⟩]
    rw [SPEED_INCREMENT, MAX_SPEED, min_eq_left (by norm_num : (5 : ℚ) + 1/2 ≤ 15)]
    norm_num

theorem C5_witness : gFive'.gameState.speed = 11/2 :=
  C5_speed_progression.2 gFive gFive' [⟨1, 1⟩] rfl rfl rfl

theorem requestedTurn_cases {key : String} {r : Cell} (h : requestedTurn key = some r) :
    ((key = "ArrowUp" ∨ key = "w" ∨ key = "W") ∧ r = ⟨0, -1⟩) ∨
    ((key = "ArrowDown" ∨ key = "s" ∨ key = "S") ∧ r = ⟨0, 1⟩) ∨
    ((key = "ArrowLeft" ∨ key = "a" ∨ key = "A") ∧ r = ⟨-1, 0⟩) ∨
    ((key = "ArrowRight" ∨ key = "d" ∨ key = "D") ∧ r = ⟨1, 0⟩) := by
  rw [requestedTurn] at h
  split at h
  · next hc => exact Or.inl ⟨hc, (Option.some_inj.mp h).symm⟩
  · next hc1 =>
      split at h
      · next hc => exact Or.inr (Or.inl ⟨hc, (Option.some_inj.mp h).symm⟩)
      · next hc2 =>
          split at h
          · next hc => exact Or.inr (Or.inr (Or.inl ⟨hc, (Option.some_inj.mp h).symm⟩))
          · next hc3 =>
              split at h
              · next hc => exact Or.inr (Or.inr (Or.inr ⟨hc, (Option.some_inj.mp h).symm⟩))
              · cases h

/-- C1 as stated is false on the code: in the reachable PLAYING state
`gTurn` (moving right with a down-turn buffered), the request right is
not a reversal of the current direction (1,0), yet `handleKeyPress`
ignores it because its check is `direction.x === 0`, not a reversal
test, so NextDirection stays (0,1) instead of becoming (1,0). -/
theorem C1_counterexample : ¬ ClaimC1 := by
  intro hC
  have hreach : Reachable gTurn :=
    Reachable.key "ArrowDown" []
      (Reachable.key "Enter" [⟨0, 0⟩] (Reachable.init 0) rfl) rfl
  have h := hC gTurn gTurn "ArrowRight" ⟨1, 0⟩ [] hreach rfl rfl rfl
  exact absurd h (by decide)

/-- C1 amended: in a PLAYING state a turn request is stored as
NextDirection exactly when the current direction's component along the
requested direction's axis is zero (the request is perpendicular to the
current motion); requests parallel to the current motion — reversals and
same-direction requests alike — are ignored, leaving NextDirection (and
everything else) unchanged. -/
theorem C1_amended_turn_rule {g g' : Game} (key : String) {r : Cell} (d : List Cell)
    (hst : g.gameState.state = GState.PLAYING)
    (hreq : requestedTurn key = some r)
    (hkp : handleKeyPress g key d = some g') :
    g'.snake.nextDirection =
      (if (r.x = 0 ∧ g.snake.direction.y = 0) ∨ (r.y = 0 ∧ g.snake.direction.x = 0)
       then r else g.snake.nextDirection) ∧
    g'.snake.direction = g.snake.direction ∧
    g'.snake.segments = g.snake.segments ∧
    g'.gameState = g.gameState := by
  rcases requestedTurn_cases hreq with ⟨hk, rfl⟩ | ⟨hk, rfl⟩ | ⟨hk, rfl⟩ | ⟨hk, rfl⟩
  · rcases hk with rfl | rfl | rfl <;>
    · simp only [handleKeyPress, hst, reduceIte] at hkp
      injection hkp with hkp
      subst hkp
      by_cases hdy : g.snake.direction.y = 0
      · rw [if_pos hdy, if_pos (Or.inl ⟨rfl, hdy⟩)]
        exact ⟨rfl, rfl, rfl, rfl⟩
      · rw [if_neg hdy,
          if_neg (fun hor => hor.elim (fun hp => hdy hp.2) (fun hp => absurd hp.1 (by decide)))]
        exact ⟨rfl, rfl, rfl, rfl⟩
  · rcases hk with rfl | rfl | rfl <;>
    · simp only [handleKeyPress, hst, reduceIte] at hkp
      injection hkp with hkp
      subst hkp
      by_cases hdy : g.snake.direction.y = 0
      · rw [if_pos hdy, if_pos (Or.inl ⟨rfl, hdy⟩)]
        exact ⟨rfl, rfl, rfl, rfl⟩
      · rw [if_neg hdy,
          if_neg (fun hor => hor.elim (fun hp => hdy hp.2) (fun hp => absurd hp.1 (by decide)))]
        exact ⟨rfl, rfl, rfl, rfl⟩
  · rcases hk with rfl | rfl | rfl <;>
    · simp only [handleKeyPress, hst, reduceIte] at hkp
      injection hkp with hkp
      subst hkp
      by_cases hdx : g.snake.direction.x = 0
      · rw [if_pos hdx, if_pos (Or.inr ⟨rfl, hdx⟩)]
        exact ⟨rfl, rfl, rfl, rfl⟩
      · rw [if_neg hdx,
          if_neg (fun hor => hor.elim (fun hp => absurd hp.1 (by decide)) (fun hp => hdx hp.2))]
        exact ⟨rfl, rfl, rfl, rfl⟩
  · rcases hk with rfl | rfl | rfl <;>
    · simp only [handleKeyPress, hst, reduceIte] at hkp
      injection hkp with hkp
      subst hkp
      by_cases hdx : g.snake.direction.x = 0
      · rw [if_pos hdx, if_pos (Or.inr ⟨rfl, hdx⟩)]
        exact ⟨rfl, rfl, rfl, rfl⟩
      · rw [if_neg hdx,
          if_neg (fun hor => hor.elim (fun hp => absurd hp.1 (by decide)) (fun hp => hdx hp.2))]
        exact ⟨rfl, rfl, rfl, rfl⟩

theorem C1_amended_witness :
    gTurn.snake.nextDirection =
      (if ((⟨1, 0⟩ : Cell).x = 0 ∧ gTurn.snake.direction.y = 0) ∨
          ((⟨1, 0⟩ : Cell).y = 0 ∧ gTurn.snake.direction.x = 0)
       then (⟨1, 0⟩ : Cell) else gTurn.snake.nextDirection) ∧
    gTurn.snake.direction = gTurn.snake.direction ∧
    gTurn.snake.segments = gTurn.snake.segments ∧
    gTurn.gameState = gTurn.gameState :=
  C1_amended_turn_rule "ArrowRight" [] rfl rfl rfl
